import Mathlib

/-!
Verification of the task-hierarchy slice of vibe-kanban.

The code under scrutiny consists of:
* `crates/db/migrations/20260103193000_add_task_track_parent_task_id_phase_key.sql`,
  which adds the columns `track` (TEXT NOT NULL DEFAULT 'quick'),
  `parent_task_id` (BLOB NULL) and `phase_key` (TEXT NULL) to the `tasks`
  table, two secondary indexes, and the unique index
  `ux_tasks_parent_phase ON tasks(parent_task_id, phase_key)
   WHERE parent_task_id IS NOT NULL AND phase_key IS NOT NULL`;
* `frontend/src/hooks/useTaskChildren.ts`, a react-query hook;
* `frontend/src/components/dialogs/tasks/ViewRelatedTasksDialog.tsx`,
  which merges parent/children/taskChildren into one de-duplicated list
  through a JavaScript `Map`.

The store is embedded shallowly: a table is a list of rows, an INSERT is an
atomic check-and-append that enforces the unique index exactly as SQLite
does (serialized writers, constraint checked at write time).
-/

namespace VibeKanban

/-- A row of the `tasks` table, restricted to the columns the migration
touches.  `id` stands for the UUID primary key (stored as BLOB);
`parent_task_id` is the nullable BLOB column, `phase_key` the nullable TEXT
column, and `track` the non-null TEXT column. -/
structure TaskRow where
  id : Nat
  track : String
  parent_task_id : Option Nat
  phase_key : Option String
deriving DecidableEq, Repr

/-- The predicate of the unique index `ux_tasks_parent_phase`: two rows
collide exactly when both have non-null `parent_task_id` and non-null
`phase_key` and the two pairs coincide (the WHERE clause of the index
exempts any row with a NULL in either column). -/
def samePhasePair (a b : TaskRow) : Bool :=
  match a.parent_task_id, a.phase_key, b.parent_task_id, b.phase_key with
  | some p, some k, some q, some l => p == q && k == l
  | _, _, _, _ => false

/-- Errors surfaced by the storage layer. -/
inductive DbError
  | constraintViolation
deriving DecidableEq, Repr

/-- An INSERT into `tasks` under the schema produced by the migration: the
storage engine atomically checks the unique index `ux_tasks_parent_phase`
against the live rows and either rejects the write with a constraint
violation or appends the row.  No other constraint of the migration applies
to the new columns (in particular there is no FOREIGN KEY on
`parent_task_id`). -/
def insertTask (store : List TaskRow) (r : TaskRow) : Except DbError (List TaskRow) :=
  if store.any (fun s => samePhasePair s r) then
    .error .constraintViolation
  else
    .ok (store ++ [r])

/-- Sequential composition of INSERTs, failing on the first rejection. -/
def insertAll (store : List TaskRow) (rs : List TaskRow) : Except DbError (List TaskRow) :=
  rs.foldlM insertTask store

/-- The invariant guaranteed by `ux_tasks_parent_phase`: no two live rows
share a non-null `(parent_task_id, phase_key)` pair. -/
def PhaseUnique (store : List TaskRow) : Prop :=
  store.Pairwise (fun a b => samePhasePair a b = false)

/-- An INSERT that leaves `track` unspecified: SQLite fills in the column
default `'quick'` declared by `ALTER TABLE tasks ADD COLUMN track TEXT NOT
NULL DEFAULT 'quick'`. -/
def mkTaskRow (id : Nat) (trackVal : Option String) (parent : Option Nat)
    (phase : Option String) : TaskRow :=
  { id := id, track := trackVal.getD "quick", parent_task_id := parent,
    phase_key := phase }

/-- Point lookup of a task by primary key. -/
def getTask (store : List TaskRow) (id : Nat) : Option TaskRow :=
  store.find? (fun t => t.id == id)

/-- Serialized execution of a batch of INSERT attempts, as the storage
engine performs it for concurrent writers (each check-and-insert is one
atomic step; an arbitrary interleaving is an arbitrary order of the list).
Returns the final store, the number of successes and the number of
constraint-violation failures. -/
def runAttempts : List TaskRow → List TaskRow → List TaskRow × Nat × Nat
  | store, [] => (store, 0, 0)
  | store, r :: rs =>
    match insertTask store r with
    | .ok s' =>
      let t := runAttempts s' rs
      (t.1, t.2.1 + 1, t.2.2)
    | .error _ =>
      let t := runAttempts store rs
      (t.1, t.2.1, t.2.2 + 1)

/-! Concrete rows for the scenario of §8 of the spec and for witnesses. -/

/-- Parent task A: no parent, no phase. -/
def taskA : TaskRow :=
  { id := 1, track := "quick", parent_task_id := none, phase_key := none }

/-- Child B of A in phase "design". -/
def taskB : TaskRow :=
  { id := 2, track := "quick", parent_task_id := some 1, phase_key := some "design" }

/-- Child C of A in phase "review". -/
def taskC : TaskRow :=
  { id := 3, track := "quick", parent_task_id := some 1, phase_key := some "review" }

/-- Child D of A, again in phase "design" (conflicts with B). -/
def taskD : TaskRow :=
  { id := 4, track := "quick", parent_task_id := some 1, phase_key := some "design" }

/-- A second top-level task (no parent, no phase). -/
def taskE : TaskRow :=
  { id := 5, track := "quick", parent_task_id := none, phase_key := none }

/-- A row with a NULL in `parent_task_id` or `phase_key` never collides with
anything under the WHERE clause of `ux_tasks_parent_phase`. -/
theorem samePhasePair_of_null (s r : TaskRow)
    (h : r.parent_task_id = none ∨ r.phase_key = none) :
    samePhasePair s r = false := by
  unfold samePhasePair
  cases hp : s.parent_task_id <;> cases hk : s.phase_key <;>
    cases hq : r.parent_task_id <;> cases hl : r.phase_key <;> simp_all

/-- Two rows that both carry the pair `(some p, some k)` collide under the
unique index. -/
theorem samePhasePair_of_hasPair {s r : TaskRow} {p : Nat} {k : String}
    (hs : s.parent_task_id = some p ∧ s.phase_key = some k)
    (hr : r.parent_task_id = some p ∧ r.phase_key = some k) :
    samePhasePair s r = true := by
  unfold samePhasePair
  rw [hs.1, hs.2, hr.1, hr.2]
  simp

/-- A row that collides with a row carrying the pair `(some p, some k)`
itself carries that pair. -/
theorem hasPair_of_samePhasePair {s r : TaskRow} {p : Nat} {k : String}
    (hr : r.parent_task_id = some p ∧ r.phase_key = some k)
    (h : samePhasePair s r = true) :
    s.parent_task_id = some p ∧ s.phase_key = some k := by
  unfold samePhasePair at h
  rw [hr.1, hr.2] at h
  cases hp : s.parent_task_id <;> cases hk : s.phase_key <;> rw [hp, hk] at h
  · cases h
  · cases h
  · cases h
  · simp at h
    exact ⟨by rw [h.1], by rw [h.2]⟩

/-- C1: for two rows with the same non-null `(parent_task_id, phase_key)`
pair, at most one exists at a time: inserting the second while the first is
live is rejected with a constraint violation, and any successful insert
preserves the uniqueness invariant of `ux_tasks_parent_phase`. -/
theorem ux_tasks_parent_phase_rejects_duplicate (store : List TaskRow) (r : TaskRow) :
    ((∃ s ∈ store, samePhasePair s r = true) →
        insertTask store r = .error .constraintViolation)
    ∧ (PhaseUnique store → ∀ s', insertTask store r = .ok s' → PhaseUnique s') := by
  constructor
  · rintro ⟨s, hs, hpair⟩
    unfold insertTask
    rw [if_pos (List.any_eq_true.mpr ⟨s, hs, hpair⟩)]
  · intro hu s' hok
    unfold insertTask at hok
    by_cases h : store.any (fun s => samePhasePair s r) = true
    · rw [if_pos h] at hok; cases hok
    · rw [if_neg h] at hok
      cases hok
      have hall : ∀ s ∈ store, samePhasePair s r = false := by
        intro s hs
        by_contra hne
        exact h (List.any_eq_true.mpr ⟨s, hs, by
          cases hb : samePhasePair s r
          · exact absurd hb hne
          · rfl⟩)
      rw [PhaseUnique, List.pairwise_append]
      refine ⟨hu, List.pairwise_singleton _ _, ?_⟩
      intro a ha b hb
      rw [List.mem_singleton] at hb
      rw [hb]
      exact hall a ha

/-- Witness for C1: with child B (phase "design" under parent 1) live,
inserting D with the same pair is rejected. -/
theorem ux_tasks_parent_phase_rejects_duplicate_witness :
    insertTask [taskB] taskD = .error .constraintViolation :=
  (ux_tasks_parent_phase_rejects_duplicate [taskB] taskD).1
    ⟨taskB, by decide, by decide⟩

/-- C2: rows with a NULL `parent_task_id` or a NULL `phase_key` are exempt
from `ux_tasks_parent_phase`: inserting any number of them, against any
store, always succeeds and appends them all. -/
theorem null_fields_exempt_from_uniqueness (store rs : List TaskRow)
    (h : ∀ r ∈ rs, r.parent_task_id = none ∨ r.phase_key = none) :
    insertAll store rs = .ok (store ++ rs) := by
  induction rs generalizing store with
  | nil =>
    rw [insertAll, List.foldlM_nil, List.append_nil]
    rfl
  | cons r rs ih =>
    have hr := h r (List.mem_cons_self r rs)
    have hno : ¬(store.any (fun s => samePhasePair s r) = true) := by
      rw [List.any_eq_true]
      rintro ⟨s, _, hpair⟩
      rw [samePhasePair_of_null s r hr] at hpair
      cases hpair
    have hins : insertTask store r = .ok (store ++ [r]) := by
      unfold insertTask
      rw [if_neg hno]
    have ih' := ih (store ++ [r]) (fun x hx => h x (List.mem_cons_of_mem r hx))
    rw [insertAll, List.foldlM_cons, hins]
    rw [insertAll] at ih'
    simpa [List.append_assoc] using ih'

/-- Witness for C2: two top-level tasks (both NULL parent, NULL phase)
insert back to back without rejection. -/
theorem null_fields_exempt_from_uniqueness_witness :
    insertAll [] [taskA, taskE] = .ok [taskA, taskE] :=
  null_fields_exempt_from_uniqueness [] [taskA, taskE] (by decide)

/-- C4: the §8 scenario. A (no parent/phase) inserts; B = (A, "design")
inserts; C = (A, "review") inserts because the phase differs; D =
(A, "design") is rejected because B already claims the pair. -/
theorem phase_scenario_design_review :
    insertTask [] taskA = .ok [taskA]
    ∧ insertTask [taskA] taskB = .ok [taskA, taskB]
    ∧ insertTask [taskA, taskB] taskC = .ok [taskA, taskB, taskC]
    ∧ insertTask [taskA, taskB, taskC] taskD = .error .constraintViolation :=
  ⟨rfl, rfl, rfl, rfl⟩

/-- C5: a task created without an explicit `track` value receives the
column default `'quick'`, and reading it back by id yields
`track = "quick"`. -/
theorem track_default_roundtrip (store : List TaskRow) (id : Nat)
    (parent : Option Nat) (phase : Option String) (s' : List TaskRow)
    (hfresh : ∀ s ∈ store, s.id ≠ id)
    (hok : insertTask store (mkTaskRow id none parent phase) = .ok s') :
    (getTask s' id).map TaskRow.track = some "quick" := by
  unfold insertTask at hok
  by_cases h : store.any (fun s => samePhasePair s (mkTaskRow id none parent phase)) = true
  · rw [if_pos h] at hok; cases hok
  · rw [if_neg h] at hok
    cases hok
    rw [getTask, List.find?_append]
    have hnone : store.find? (fun t => t.id == id) = none := by
      rw [List.find?_eq_none]
      intro s hs
      simpa using hfresh s hs
    rw [hnone]
    simp [List.find?, mkTaskRow]

/-- Witness for C5: inserting a track-less row with fresh id 7 next to A
and reading id 7 back yields track "quick". -/
theorem track_default_roundtrip_witness :
    (getTask [taskA, mkTaskRow 7 none (some 1) none] 7).map TaskRow.track = some "quick" :=
  track_default_roundtrip [taskA] 7 (some 1) none
    ([taskA] ++ [mkTaskRow 7 none (some 1) none]) (by decide) rfl

/-- Once some live row carries the pair `(some p, some k)`, every further
attempt to insert a row with that pair fails, leaving the store unchanged
and counting one failure per attempt. -/
theorem runAttempts_all_fail (p : Nat) (k : String) :
    ∀ (rs store : List TaskRow),
      (∃ s ∈ store, s.parent_task_id = some p ∧ s.phase_key = some k) →
      (∀ r ∈ rs, r.parent_task_id = some p ∧ r.phase_key = some k) →
      runAttempts store rs = (store, 0, rs.length) := by
  intro rs
  induction rs with
  | nil => intro store _ _; rfl
  | cons r rs ih =>
    intro store hex hall
    obtain ⟨s, hs, hps⟩ := hex
    have herr : insertTask store r = .error .constraintViolation := by
      have hany : (store.any fun x => samePhasePair x r) = true :=
        List.any_eq_true.mpr
          ⟨s, hs, samePhasePair_of_hasPair hps (hall r (List.mem_cons_self r rs))⟩
      unfold insertTask
      rw [if_pos hany]
    rw [runAttempts, herr]
    simp [ih store ⟨s, hs, hps⟩ (fun x hx => hall x (List.mem_cons_of_mem r hx))]

/-- C3: N serialized attempts (any interleaving the storage engine's atomic
check-and-insert can produce) to insert rows sharing one non-null
`(parent_task_id, phase_key)` pair, starting from a store free of that
pair, yield exactly one success; every other attempt fails with a
constraint violation. -/
theorem concurrent_phase_inserts_one_success (store rs : List TaskRow)
    (p : Nat) (k : String)
    (hne : rs ≠ [])
    (hall : ∀ r ∈ rs, r.parent_task_id = some p ∧ r.phase_key = some k)
    (hstore : ∀ s ∈ store, ¬(s.parent_task_id = some p ∧ s.phase_key = some k)) :
    (runAttempts store rs).2.1 = 1 ∧ (runAttempts store rs).2.2 = rs.length - 1 := by
  cases rs with
  | nil => exact absurd rfl hne
  | cons r rs =>
    have hr := hall r (List.mem_cons_self r rs)
    have hok : insertTask store r = .ok (store ++ [r]) := by
      unfold insertTask
      rw [if_neg]
      rw [List.any_eq_true]
      rintro ⟨s, hs, hps⟩
      exact hstore s hs (hasPair_of_samePhasePair hr hps)
    have hrest : runAttempts (store ++ [r]) rs = (store ++ [r], 0, rs.length) :=
      runAttempts_all_fail p k rs (store ++ [r])
        ⟨r, by simp, hr⟩ (fun x hx => hall x (List.mem_cons_of_mem r hx))
    rw [runAttempts, hok]
    simp [hrest]

/-- Witness for C3: three attempts on the pair `(1, "design")` against a
store holding only parent A give one success and two failures. -/
theorem concurrent_phase_inserts_one_success_witness :
    (runAttempts [taskA] [taskB, taskD, mkTaskRow 9 none (some 1) (some "design")]).2.1 = 1
    ∧ (runAttempts [taskA] [taskB, taskD, mkTaskRow 9 none (some 1) (some "design")]).2.2 = 2 :=
  concurrent_phase_inserts_one_success [taskA]
    [taskB, taskD, mkTaskRow 9 none (some 1) (some "design")] 1 "design"
    (by decide) (by decide) (by decide)

/-- C8: the schema places no foreign key on `parent_task_id`.  A row whose
non-null parent id matches no live task's id is accepted by the storage
layer whenever it does not trip the unique index: nothing in `insertTask`
consults the referenced id. -/
theorem no_foreign_key_on_parent (store : List TaskRow) (r : TaskRow) (p : Nat)
    (hparent : r.parent_task_id = some p)
    (hdangling : ∀ s ∈ store, s.id ≠ p)
    (hnoconf : ∀ s ∈ store, samePhasePair s r = false) :
    insertTask store r = .ok (store ++ [r]) := by
  unfold insertTask
  rw [if_neg]
  rw [List.any_eq_true]
  rintro ⟨s, hs, hps⟩
  rw [hnoconf s hs] at hps
  cases hps

/-- Witness for C8: a row whose parent id 99 matches no stored task still
inserts. -/
theorem no_foreign_key_on_parent_witness :
    insertTask [taskA] (mkTaskRow 6 none (some 99) (some "design"))
      = .ok ([taskA] ++ [mkTaskRow 6 none (some 99) (some "design")]) :=
  no_foreign_key_on_parent [taskA] (mkTaskRow 6 none (some 99) (some "design")) 99
    (by decide) (by decide) (by decide)

/-! Embedding of the migration script itself: schema evolution.  A schema is
the set of column names of `tasks` plus the set of index names. -/

/-- The columns and indexes of the `tasks` table, as the migration sees
them. -/
structure Schema where
  columns : List String
  indexes : List String
deriving DecidableEq, Repr

/-- Errors raised while applying the migration. -/
inductive MigrationError
  | duplicateColumn
deriving DecidableEq, Repr

/-- `ALTER TABLE tasks ADD COLUMN c ...`: fails if the column already
exists (SQLite has no IF NOT EXISTS for ADD COLUMN), otherwise appends
it. -/
def addColumn (s : Schema) (c : String) : Except MigrationError Schema :=
  if c ∈ s.columns then .error .duplicateColumn
  else .ok { s with columns := s.columns ++ [c] }

/-- `CREATE [UNIQUE] INDEX IF NOT EXISTS i ...`: a no-op when the index
already exists, never an error. -/
def createIndexIfNotExists (s : Schema) (i : String) : Except MigrationError Schema :=
  if i ∈ s.indexes then .ok s
  else .ok { s with indexes := s.indexes ++ [i] }

/-- The three index names the migration creates. -/
def migrationIndexNames : List String :=
  ["idx_tasks_parent_task_id", "idx_tasks_track", "ux_tasks_parent_phase"]

/-- The three `CREATE INDEX IF NOT EXISTS` statements of the migration, in
script order. -/
def applyIndexStatements (s : Schema) : Except MigrationError Schema := do
  let s1 ← createIndexIfNotExists s "idx_tasks_parent_task_id"
  let s2 ← createIndexIfNotExists s1 "idx_tasks_track"
  createIndexIfNotExists s2 "ux_tasks_parent_phase"

/-- The three `ALTER TABLE tasks ADD COLUMN` statements of the migration,
in script order. -/
def applyColumnStatements (s : Schema) : Except MigrationError Schema := do
  let s1 ← addColumn s "track"
  let s2 ← addColumn s1 "parent_task_id"
  addColumn s2 "phase_key"

/-- A `tasks` schema that has already been migrated once: base columns plus
the three added columns and the three indexes. -/
def migratedSchema : Schema :=
  { columns := ["id", "title", "track", "parent_task_id", "phase_key"],
    indexes := migrationIndexNames }

/-- A pre-migration `tasks` schema. -/
def baseSchema : Schema :=
  { columns := ["id", "title"], indexes := [] }

/-- `baseSchema` after the column additions (but before the index
statements). -/
def alteredSchema : Schema :=
  { columns := ["id", "title", "track", "parent_task_id", "phase_key"],
    indexes := [] }

/-- C6: reapplying the three `CREATE INDEX IF NOT EXISTS` statements to a
schema that already holds all three indexes raises no error and leaves the
schema unchanged. -/
theorem index_creation_idempotent (s : Schema)
    (h : ∀ i ∈ migrationIndexNames, i ∈ s.indexes) :
    applyIndexStatements s = .ok s := by
  have c1 : createIndexIfNotExists s "idx_tasks_parent_task_id" = .ok s := by
    rw [createIndexIfNotExists,
      if_pos (h "idx_tasks_parent_task_id" (by simp [migrationIndexNames]))]
  have c2 : createIndexIfNotExists s "idx_tasks_track" = .ok s := by
    rw [createIndexIfNotExists,
      if_pos (h "idx_tasks_track" (by simp [migrationIndexNames]))]
  have c3 : createIndexIfNotExists s "ux_tasks_parent_phase" = .ok s := by
    rw [createIndexIfNotExists,
      if_pos (h "ux_tasks_parent_phase" (by simp [migrationIndexNames]))]
  calc applyIndexStatements s
      = (createIndexIfNotExists s "idx_tasks_parent_task_id" >>= fun s1 =>
          createIndexIfNotExists s1 "idx_tasks_track" >>= fun s2 =>
            createIndexIfNotExists s2 "ux_tasks_parent_phase") := rfl
    _ = (createIndexIfNotExists s "idx_tasks_track" >>= fun s2 =>
          createIndexIfNotExists s2 "ux_tasks_parent_phase") := by rw [c1]; rfl
    _ = createIndexIfNotExists s "ux_tasks_parent_phase" := by rw [c2]; rfl
    _ = .ok s := c3

/-- Witness for C6. -/
theorem index_creation_idempotent_witness :
    applyIndexStatements migratedSchema = .ok migratedSchema :=
  index_creation_idempotent migratedSchema (by decide)

/-- Adding a fresh column records it and keeps every previous column. -/
theorem addColumn_ok_mem {s t : Schema} {c : String} (h : addColumn s c = .ok t) :
    c ∈ t.columns ∧ ∀ d ∈ s.columns, d ∈ t.columns := by
  unfold addColumn at h
  by_cases hc : c ∈ s.columns
  · rw [if_pos hc] at h; cases h
  · rw [if_neg hc] at h
    cases h
    refine ⟨by simp, ?_⟩
    intro d hd
    simp [hd]

/-- C7: the `ALTER TABLE ADD COLUMN` part of the migration is not
idempotent: after one successful application, running the column additions
again fails (duplicate column), a fatal setup error. -/
theorem column_addition_not_idempotent (s s' : Schema)
    (h : applyColumnStatements s = .ok s') :
    applyColumnStatements s' = .error .duplicateColumn := by
  have h0 : (addColumn s "track" >>= fun s1 =>
      addColumn s1 "parent_task_id" >>= fun s2 =>
        addColumn s2 "phase_key") = .ok s' := h
  cases h1 : addColumn s "track" with
  | error e =>
    rw [h1] at h0
    have hc : (Except.error e : Except MigrationError Schema) = .ok s' := h0
    cases hc
  | ok s1 =>
    rw [h1] at h0
    have h0' : (addColumn s1 "parent_task_id" >>= fun s2 =>
        addColumn s2 "phase_key") = .ok s' := h0
    cases h2 : addColumn s1 "parent_task_id" with
    | error e =>
      rw [h2] at h0'
      have hc : (Except.error e : Except MigrationError Schema) = .ok s' := h0'
      cases hc
    | ok s2 =>
      rw [h2] at h0'
      have h3 : addColumn s2 "phase_key" = .ok s' := h0'
      have htrack : "track" ∈ s'.columns :=
        (addColumn_ok_mem h3).2 _ ((addColumn_ok_mem h2).2 _ (addColumn_ok_mem h1).1)
      have hfail : addColumn s' "track" = .error .duplicateColumn := by
        rw [addColumn, if_pos htrack]
      calc applyColumnStatements s'
          = (addColumn s' "track" >>= fun s1 =>
              addColumn s1 "parent_task_id" >>= fun s2 =>
                addColumn s2 "phase_key") := rfl
        _ = .error .duplicateColumn := by rw [hfail]; rfl

/-- Witness for C7: the once-migrated schema rejects a second round of
column additions. -/
theorem column_addition_not_idempotent_witness :
    applyColumnStatements alteredSchema = .error .duplicateColumn :=
  column_addition_not_idempotent baseSchema alteredSchema rfl

/-!
Embedding of `frontend/src/hooks/useTaskChildren.ts`.

The hook computes `enabled = (opts?.enabled ?? true) && !!taskId` and hands
react-query a `queryFn` that evaluates `tasksApi.getChildren(taskId!)`;
react-query runs the `queryFn` only when `enabled` is true.  `taskId` is
`string | undefined`, modelled as `Option String`; JavaScript truthiness of
a string (`!!taskId`) is false for `undefined` and for the empty string.
-/

/-- A failed TypeScript non-null assertion (`taskId!` evaluated on
`undefined`). -/
inductive JsError
  | nonNullAssertionFailed
deriving DecidableEq, Repr

/-- `!!taskId` for `taskId : string | undefined`. -/
def jsTruthy (s : Option String) : Bool :=
  match s with
  | none => false
  | some str => !(str == "")

/-- `const enabled = (opts?.enabled ?? true) && !!taskId`. -/
def hookEnabled (taskId : Option String) (optsEnabled : Option Bool) : Bool :=
  optsEnabled.getD true && jsTruthy taskId

/-- The body of the hook's `queryFn`: the argument `taskId!` passed to
`tasksApi.getChildren`, with the non-null assertion made explicit. -/
def getChildrenArg (taskId : Option String) : Except JsError String :=
  match taskId with
  | some t => .ok t
  | none => .error .nonNullAssertionFailed

/-- One render/fetch cycle of `useTaskChildren`: react-query evaluates the
`queryFn` exactly when `enabled` holds, otherwise the query stays idle
(`none`). -/
def runUseTaskChildren (taskId : Option String) (optsEnabled : Option Bool) :
    Option (Except JsError String) :=
  if hookEnabled taskId optsEnabled then some (getChildrenArg taskId) else none

/-- C9: with `taskId` undefined, or `enabled: false` passed, the query is
disabled and the `queryFn` never runs; whenever the `queryFn` does run, the
`taskId!` assertion succeeds and `tasksApi.getChildren` receives the
defined `taskId`. -/
theorem useTaskChildren_never_asserts_undefined (taskId : Option String)
    (optsEnabled : Option Bool) :
    ((taskId = none ∨ optsEnabled = some false) →
        runUseTaskChildren taskId optsEnabled = none)
    ∧ (∀ r, runUseTaskChildren taskId optsEnabled = some r →
        ∃ t, taskId = some t ∧ r = .ok t) := by
  constructor
  · intro h
    rw [runUseTaskChildren, if_neg]
    intro henabled
    rw [hookEnabled] at henabled
    rcases h with h | h <;> rw [h] at henabled <;> simp [jsTruthy] at henabled
  · intro r hr
    rw [runUseTaskChildren] at hr
    by_cases he : hookEnabled taskId optsEnabled = true
    · rw [if_pos he] at hr
      cases taskId with
      | none =>
        rw [hookEnabled, jsTruthy] at he
        simp at he
      | some t =>
        exact ⟨t, rfl, by cases hr; rfl⟩
    · rw [if_neg he] at hr
      cases hr

/-- Witness for C9: an undefined `taskId` leaves the query idle, and a
defined one reaches `getChildren` intact. -/
theorem useTaskChildren_never_asserts_undefined_witness :
    runUseTaskChildren none (some true) = none :=
  (useTaskChildren_never_asserts_undefined none (some true)).1 (Or.inl rfl)

/-!
Embedding of the `relatedTasks` computation of
`frontend/src/components/dialogs/tasks/ViewRelatedTasksDialog.tsx`.

The component builds `const byId = new Map<string, Task>()`, sets the
parent (when `relationships?.parent_task` is truthy), then every element of
`relationships.children`, then every element of `taskChildren`, and returns
`Array.from(byId.values())`.  A JavaScript `Map` keeps one entry per key:
`set` on an existing key overwrites the value in place (insertion order is
kept), `set` on a fresh key appends.
-/

/-- A task as the dialog sees it (the fields the merge reads/keeps). -/
structure Task where
  id : String
  title : String
  description : String
deriving DecidableEq, Repr

/-- The payload of `useTaskRelationships` consumed by the dialog. -/
structure TaskRelationships where
  parent_task : Option Task
  children : List Task
deriving DecidableEq, Repr

/-- JavaScript `Map.prototype.set` on a `Map<string, Task>` represented as
its insertion-ordered entry list: overwrite in place if the key exists,
append otherwise. -/
def mapSet : List (String × Task) → String → Task → List (String × Task)
  | [], k, v => [(k, v)]
  | p :: ps, k, v => if p.1 = k then (k, v) :: ps else p :: mapSet ps k v

/-- `byId.get k` — the entry stored under `k`. -/
def lookupM : List (String × Task) → String → Option Task
  | [], _ => none
  | p :: ps, k => if p.1 = k then some p.2 else lookupM ps k

/-- The last element of `xs` whose `id` is `k` — the source processed last
for that id. -/
def lastById : List Task → String → Option Task
  | [], _ => none
  | t :: ts, k =>
    match lastById ts k with
    | some u => some u
    | none => if t.id = k then some t else none

/-- The `relatedTasks` `useMemo` of `ViewRelatedTasksDialog`, statement by
statement: seed the map with the parent when present, fold in
`relationships.children`, fold in `taskChildren`, read off the values. -/
def relatedTasks (relationships : Option TaskRelationships)
    (taskChildren : List Task) : List Task :=
  let m0 : List (String × Task) :=
    match relationships with
    | some rel =>
      match rel.parent_task with
      | some p => mapSet [] p.id p
      | none => []
    | none => []
  let m1 :=
    match relationships with
    | some rel => rel.children.foldl (fun m c => mapSet m c.id c) m0
    | none => m0
  let m2 := taskChildren.foldl (fun m c => mapSet m c.id c) m1
  m2.map Prod.snd

/-- The three inputs of the merge, flattened in processing order: parent
first, then `relationships.children`, then `taskChildren`. -/
def relatedInputs (relationships : Option TaskRelationships)
    (taskChildren : List Task) : List Task :=
  (match relationships with
   | some rel => rel.parent_task.toList ++ rel.children
   | none => []) ++ taskChildren

/-- One `byId.set(child.id, child)` step. -/
def setStep (m : List (String × Task)) (t : Task) : List (String × Task) :=
  mapSet m t.id t

/-- `set` then `get`: the written key reads back the new value, every other
key is untouched. -/
theorem lookupM_mapSet (m : List (String × Task)) (k q : String) (v : Task) :
    lookupM (mapSet m k v) q = if q = k then some v else lookupM m q := by
  induction m with
  | nil =>
    simp only [mapSet, lookupM]
    by_cases h : q = k
    · rw [if_pos (h.symm : k = q), if_pos h]
    · rw [if_neg (fun h' : k = q => h h'.symm), if_neg h]
  | cons p ps ih =>
    rw [mapSet]
    by_cases hp : p.1 = k
    · rw [if_pos hp]
      simp only [lookupM]
      by_cases hq : q = k
      · rw [if_pos (hq.symm : k = q), if_pos hq]
      · rw [if_neg (fun h' : k = q => hq h'.symm), if_neg hq,
          if_neg (fun h' : p.1 = q => hq (h'.symm.trans hp))]
    · rw [if_neg hp]
      simp only [lookupM]
      rw [ih]
      by_cases hq : p.1 = q
      · have hqk : ¬q = k := fun h' => hp (hq.trans h')
        rw [if_pos hq, if_neg hqk, if_pos hq]
      · rw [if_neg hq]
        by_cases hk : q = k
        · rw [if_pos hk, if_pos hk]
        · rw [if_neg hk, if_neg hk, if_neg hq]

/-- `set` keeps the key list intact when the key exists, appends it
otherwise. -/
theorem mapSet_keys (m : List (String × Task)) (k : String) (v : Task) :
    (mapSet m k v).map Prod.fst =
      if k ∈ m.map Prod.fst then m.map Prod.fst else m.map Prod.fst ++ [k] := by
  induction m with
  | nil => simp [mapSet]
  | cons p ps ih =>
    rw [mapSet]
    by_cases hp : p.1 = k
    · rw [if_pos hp]
      rw [if_pos (show k ∈ (p :: ps).map Prod.fst by
        simp only [List.map_cons]
        rw [hp]
        exact List.mem_cons_self k _)]
      simp only [List.map_cons]
      rw [hp]
    · rw [if_neg hp]
      simp only [List.map_cons]
      rw [ih]
      by_cases hk : k ∈ ps.map Prod.fst
      · rw [if_pos hk, if_pos (List.mem_cons_of_mem _ hk)]
      · rw [if_neg hk, if_neg (show k ∉ p.1 :: ps.map Prod.fst by
          rw [List.mem_cons]
          rintro (h | h)
          · exact hp h.symm
          · exact hk h)]
        rw [List.cons_append]

/-- `set` preserves distinctness of the stored keys. -/
theorem mapSet_keys_nodup {m : List (String × Task)}
    (h : (m.map Prod.fst).Nodup) (k : String) (v : Task) :
    ((mapSet m k v).map Prod.fst).Nodup := by
  rw [mapSet_keys]
  by_cases hk : k ∈ m.map Prod.fst
  · rw [if_pos hk]; exact h
  · rw [if_neg hk, List.nodup_append]
    exact ⟨h, List.nodup_singleton k, by
      intro a ha hb
      rw [List.mem_singleton] at hb
      rw [hb] at ha
      exact hk ha⟩

/-- Folding `byId.set` over any list of tasks keeps the keys distinct. -/
theorem foldl_setStep_keys_nodup :
    ∀ (xs : List Task) (m : List (String × Task)),
      (m.map Prod.fst).Nodup → ((xs.foldl setStep m).map Prod.fst).Nodup := by
  intro xs
  induction xs with
  | nil => intro m h; exact h
  | cons x xs ih =>
    intro m h
    rw [List.foldl_cons]
    exact ih _ (mapSet_keys_nodup h x.id x)

/-- Every entry of the map built by `byId.set(t.id, t)` steps is keyed by
its value's id. -/
theorem foldl_setStep_fst_eq_id :
    ∀ (xs : List Task) (m : List (String × Task)),
      (∀ q ∈ m, q.1 = q.2.id) → ∀ q ∈ xs.foldl setStep m, q.1 = q.2.id := by
  intro xs
  induction xs with
  | nil => intro m h; exact h
  | cons x xs ih =>
    intro m h
    rw [List.foldl_cons]
    refine ih _ ?_
    intro q hq
    rw [setStep] at hq
    clear ih
    induction m with
    | nil =>
      rw [mapSet, List.mem_singleton] at hq
      rw [hq]
    | cons p ps ihm =>
      rw [mapSet] at hq
      by_cases hp : p.1 = x.id
      · rw [if_pos hp, List.mem_cons] at hq
        rcases hq with hq | hq
        · rw [hq]
        · exact h q (List.mem_cons_of_mem p hq)
      · rw [if_neg hp, List.mem_cons] at hq
        rcases hq with hq | hq
        · rw [hq]; exact h p (List.mem_cons_self p ps)
        · exact ihm (fun q' hq' => h q' (List.mem_cons_of_mem p hq')) hq

/-- Reading the map after folding a list of tasks returns the last task of
that list with the key's id, falling back to the original map. -/
theorem foldl_setStep_lookup :
    ∀ (xs : List Task) (m : List (String × Task)) (k : String),
      lookupM (xs.foldl setStep m) k =
        match lastById xs k with
        | some u => some u
        | none => lookupM m k := by
  intro xs
  induction xs with
  | nil => intro m k; rfl
  | cons x xs ih =>
    intro m k
    rw [List.foldl_cons, ih, lastById]
    cases hx : lastById xs k with
    | some u => rfl
    | none =>
      rw [setStep, lookupM_mapSet]
      by_cases hk : k = x.id
      · rw [if_pos hk, if_pos hk.symm]
      · rw [if_neg hk, if_neg (fun h' => hk h'.symm)]

/-- With distinct keys, membership determines the lookup. -/
theorem lookupM_of_mem :
    ∀ {m : List (String × Task)} {k : String} {v : Task},
      (m.map Prod.fst).Nodup → (k, v) ∈ m → lookupM m k = some v := by
  intro m
  induction m with
  | nil => intro k v _ hm; cases hm
  | cons p ps ih =>
    intro k v hnd hm
    rw [List.map_cons, List.nodup_cons] at hnd
    rw [List.mem_cons] at hm
    rcases hm with hm | hm
    · rw [← hm, lookupM, if_pos rfl]
    · rw [lookupM]
      by_cases hp : p.1 = k
      · exfalso
        apply hnd.1
        rw [hp]
        exact List.mem_map.mpr ⟨(k, v), hm, rfl⟩
      · rw [if_neg hp]
        exact ih hnd.2 hm

/-- A successful lookup comes from a stored entry. -/
theorem mem_of_lookupM :
    ∀ {m : List (String × Task)} {k : String} {v : Task},
      lookupM m k = some v → (k, v) ∈ m := by
  intro m
  induction m with
  | nil => intro k v h; cases h
  | cons p ps ih =>
    intro k v h
    obtain ⟨a, b⟩ := p
    rw [lookupM] at h
    by_cases hp : a = k
    · rw [if_pos hp] at h
      cases h
      rw [← hp]
      exact List.mem_cons_self _ _
    · rw [if_neg hp] at h
      exact List.mem_cons_of_mem _ (ih h)

/-- A hit of `lastById` carries the id it was searched by. -/
theorem lastById_id :
    ∀ {xs : List Task} {k : String} {u : Task},
      lastById xs k = some u → u.id = k := by
  intro xs
  induction xs with
  | nil => intro k u h; cases h
  | cons x xs ih =>
    intro k u h
    simp only [lastById] at h
    cases hx : lastById xs k with
    | some w =>
      rw [hx] at h
      cases h
      exact ih hx
    | none =>
      rw [hx] at h
      by_cases hid : x.id = k
      · rw [if_pos hid] at h
        cases h
        exact hid
      · rw [if_neg hid] at h
        cases h

/-- Every member of a list is represented by a `lastById` hit for its
id. -/
theorem lastById_of_mem :
    ∀ {xs : List Task} {t : Task}, t ∈ xs →
      ∃ u, lastById xs t.id = some u ∧ u.id = t.id := by
  intro xs
  induction xs with
  | nil => intro t h; cases h
  | cons x xs ih =>
    intro t h
    rw [List.mem_cons] at h
    cases hx : lastById xs t.id with
    | some w =>
      refine ⟨w, ?_, lastById_id hx⟩
      simp only [lastById]
      rw [hx]
    | none =>
      rcases h with h | h
      · refine ⟨x, ?_, by rw [h]⟩
        simp only [lastById]
        rw [hx, if_pos (by rw [h])]
      · obtain ⟨u, hu, _⟩ := ih h
        rw [hu] at hx
        cases hx

/-- The three guarded blocks of the `useMemo` compute the same map as one
fold of `byId.set` over the flattened inputs. -/
theorem relatedTasks_eq_foldl (relationships : Option TaskRelationships)
    (taskChildren : List Task) :
    relatedTasks relationships taskChildren =
      ((relatedInputs relationships taskChildren).foldl setStep []).map Prod.snd := by
  cases relationships with
  | none => rfl
  | some rel =>
    simp only [relatedTasks, relatedInputs]
    cases hp : rel.parent_task with
    | none =>
      simp only [Option.toList, List.nil_append, List.foldl_append]
      rfl
    | some p =>
      simp only [Option.toList, List.foldl_append, List.foldl_cons, List.foldl_nil]
      rfl

/-- C10: for every combination of inputs, the `relatedTasks` list holds
pairwise-distinct task ids; each listed task is exactly the one contributed
by the source processed last for its id (parent, then
`relationships.children`, then `taskChildren`); and every input id is
represented. -/
theorem relatedTasks_distinct_ids (relationships : Option TaskRelationships)
    (taskChildren : List Task) :
    ((relatedTasks relationships taskChildren).map Task.id).Nodup
    ∧ (∀ t ∈ relatedTasks relationships taskChildren,
        lastById (relatedInputs relationships taskChildren) t.id = some t)
    ∧ (∀ t ∈ relatedInputs relationships taskChildren,
        ∃ v ∈ relatedTasks relationships taskChildren, v.id = t.id) := by
  rw [relatedTasks_eq_foldl]
  have hnd : (((relatedInputs relationships taskChildren).foldl setStep []).map
      Prod.fst).Nodup :=
    foldl_setStep_keys_nodup _ [] (by simp)
  have hfst : ∀ q ∈ (relatedInputs relationships taskChildren).foldl setStep [],
      q.1 = q.2.id :=
    foldl_setStep_fst_eq_id _ [] (by intro q hq; cases hq)
  refine ⟨?_, ?_, ?_⟩
  · rw [List.map_map]
    have hmaps : ((relatedInputs relationships taskChildren).foldl setStep []).map
          (Task.id ∘ Prod.snd)
        = ((relatedInputs relationships taskChildren).foldl setStep []).map Prod.fst :=
      List.map_congr_left (fun q hq => (hfst q hq).symm)
    rw [hmaps]
    exact hnd
  · intro t ht
    rw [List.mem_map] at ht
    obtain ⟨q, hq, hqt⟩ := ht
    have hkey : q.1 = t.id := by rw [hfst q hq, hqt]
    have hqe : q = (t.id, t) := Prod.ext hkey hqt
    have hmem : (t.id, t) ∈ (relatedInputs relationships taskChildren).foldl setStep [] := by
      rw [← hqe]
      exact hq
    have hlook := lookupM_of_mem hnd hmem
    rw [foldl_setStep_lookup] at hlook
    cases hI : lastById (relatedInputs relationships taskChildren) t.id with
    | some u =>
      rw [hI] at hlook
      cases hlook
      rfl
    | none =>
      rw [hI] at hlook
      exact hlook
  · intro t ht
    obtain ⟨u, hu, hid⟩ := lastById_of_mem ht
    have hlook : lookupM ((relatedInputs relationships taskChildren).foldl setStep [])
        t.id = some u := by
      rw [foldl_setStep_lookup, hu]
    exact ⟨u, List.mem_map.mpr ⟨(t.id, u), mem_of_lookupM hlook, rfl⟩, hid⟩

end VibeKanban
